import Mathlib

/-!
# fratools: `src/fpca/INCLUDE/statsubs.h`

A verification development for the statistical-subroutine header of the
fpca part of fratools.  The header holds the manifest constants
`CHI_EPSILON`, `CHI_MAX`, `LOG_SQRT_PI`, `I_SQRT_PI`, `BIGX`, the macro
`ex(x)` and the prototypes of the library routines.

`double` is modelled by an ordered field (the rationals when a value is
to be evaluated, the reals when `exp` of `math.h` is meant).
-/

open MeasureTheory Set Filter Topology

namespace Statsubs

/-! ## Manifest constants (`#define` lines 8 to 13 of the header) -/

/-- Header line `#define CHI_EPSILON 0.000001`: accuracy of the critchi approximation. -/
def CHI_EPSILON : ℚ := 0.000001

/-- Header line `#define CHI_MAX 99999.0`: maximum chi square value. -/
def CHI_MAX : ℚ := 99999.0

/-- Header line `#define LOG_SQRT_PI 0.5723649429247000870717135`: log (sqrt (pi)). -/
def LOG_SQRT_PI : ℚ := 0.5723649429247000870717135

/-- Header line `#define I_SQRT_PI 0.5641895835477562869480795`: 1 / sqrt (pi). -/
def I_SQRT_PI : ℚ := 0.5641895835477562869480795

/-- Header line `#define BIGX 20.0`: max value to represent exp (x). -/
def BIGX : ℚ := 20.0

/-! ## The macro `ex` -/

/-- Header line `#define ex(x) (((x) < -BIGX) ? 0.0 : exp (x))`.
The library function `exp` of `math.h` is the parameter `exp`; the field `α`
stands for `double`. -/
def ex {α : Type} [LinearOrderedField α] (exp : α → α) (x : α) : α :=
  if x < -((BIGX : ℚ) : α) then 0.0 else exp x

/-! ## Table search: `int ifirstgt(int val, int *tab, int n)` -/

/-- Modelled from the spec: the scan inside `ifirstgt`, whose body the header
does not give.  The table is walked from index `i` upwards; the first entry
strictly greater than `val` stops the scan with its index, and a table that
is used up yields the index one past its end. -/
def ifirstgtFrom (val : Int) : List Int → Nat → Nat
  | [], i => i
  | t :: ts, i => if t > val then i else ifirstgtFrom val ts (i + 1)

/-- Modelled from the spec: the body of `int ifirstgt(int val, int *tab, int n)`,
of which the header has only the prototype.  The spec: scan an ordered table
and return the index of the first entry exceeding a value, or `n` when none
does; strict greater-than, not greater-or-equal.  Only the first `n` entries
of `tab` are read. -/
def ifirstgt (val : Int) (tab : List Int) (n : Nat) : Nat :=
  ifirstgtFrom val (tab.take n) 0

/-! ## Bernoulli-number cache: `void bernload()`, `double bernum(int x)` -/

/-- Modelled from the spec: the error taxonomy of the library (section 7 of
the spec); the header declares no error type.  The kinds are (a) domain
violation, (b) non-convergence, (c) uninitialized-cache access. -/
inductive StatError where
  | domainViolation
  | nonConvergence
  | uninitializedCache
  deriving DecidableEq

/-- Modelled from the spec: the process-wide Bernoulli table, which the header
does not declare.  `none` is the cache before the first `bernload`, `some t`
the cache holding the precomputed table `t`. -/
structure BernState where
  table : Option (List ℚ)
  deriving DecidableEq

/-- The cache at process start: nothing loaded. -/
def BernState.initial : BernState := ⟨none⟩

/-- Modelled from the spec: the body of `void bernload()`, absent from the
header.  It populates the cache once and is idempotent.  The table
`precomputed` is a parameter: the header gives neither its size nor its
values. -/
def bernload (precomputed : List ℚ) (s : BernState) : BernState :=
  match s.table with
  | some _ => s
  | none => ⟨some precomputed⟩

/-- Modelled from the spec: the body of `double bernum(int x)`, absent from
the header.  It fails when invoked before the first `bernload` or with `x`
outside the precomputed range, and otherwise indexes the table. -/
def bernum (s : BernState) (x : Int) : Except StatError ℚ :=
  match s.table with
  | none => .error .uninitializedCache
  | some t =>
    if 0 ≤ x ∧ x.toNat < t.length then .ok (t.getD x.toNat 0)
    else .error .domainViolation

/-- A call of one of the two cache routines. -/
inductive BernCall where
  | load
  | num (x : Int)
  deriving DecidableEq

/-- The cache after one call; `bernum` only reads it. -/
def bernStep (precomputed : List ℚ) (s : BernState) : BernCall → BernState
  | .load => bernload precomputed s
  | .num _ => s

/-- The cache after a run: the calls made so far, in order, from process
start. -/
def bernRun (precomputed : List ℚ) (calls : List BernCall) : BernState :=
  calls.foldl (bernStep precomputed) BernState.initial

/-! ## Normal distribution: `double nordis(double z)`, `double zprob(double p)` -/

/-- Modelled from the spec: the density of the standard normal distribution,
`exp (-t^2/2) / sqrt (2 pi)`, of which the spec says `nordis` is the CDF. -/
noncomputable def normalDensity (t : ℝ) : ℝ :=
  Real.exp (-(t ^ 2) / 2) / Real.sqrt (2 * Real.pi)

/-- Modelled from the spec: the body of `double nordis(double z)`, of which the
header has only the prototype.  The spec calls it the standard normal CDF:
the integral of the density over `(-∞, z]`.  `double` is read as a real
number. -/
noncomputable def nordis (z : ℝ) : ℝ :=
  ∫ t in Set.Iic z, normalDensity t

theorem BIGX_cast : ((BIGX : ℚ) : ℝ) = 20 := by
  unfold BIGX; norm_num

theorem ex_of_lt {x : ℝ} (h : x < -20) : ex Real.exp x = 0 := by
  unfold ex; rw [BIGX_cast, if_pos h]; norm_num

theorem ex_of_ge {x : ℝ} (h : -20 ≤ x) : ex Real.exp x = Real.exp x := by
  unfold ex; rw [BIGX_cast, if_neg (not_lt.mpr h)]

theorem exp_neg_BIGX_lt : Real.exp (-20) < 1 / 1000000 := by
  have h2 : (2 : ℝ) < Real.exp 1 := by
    have := Real.exp_one_gt_d9
    linarith
  have h20 : Real.exp 20 = Real.exp 1 ^ 20 := by
    rw [← Real.exp_nat_mul]; norm_num
  have hbig : (1000000 : ℝ) < Real.exp 20 := by
    rw [h20]
    calc (1000000 : ℝ) < 2 ^ 20 := by norm_num
      _ ≤ Real.exp 1 ^ 20 := pow_le_pow_left₀ (by norm_num) h2.le 20
  rw [Real.exp_neg, inv_eq_one_div]
  exact one_div_lt_one_div_of_lt (by norm_num) hbig

/-! ## Helper lemmas on the table search -/

theorem ifirstgtFrom_eq_findIdx (val : Int) (l : List Int) (i : Nat) :
    ifirstgtFrom val l i = i + l.findIdx (fun t => decide (t > val)) := by
  induction l generalizing i with
  | nil => simp [ifirstgtFrom]
  | cons t ts ih =>
    rw [ifirstgtFrom, List.findIdx_cons]
    by_cases h : t > val
    · simp [h]
    · simp [h, ih]; omega

theorem ifirstgt_eq_findIdx (val : Int) (tab : List Int) :
    ifirstgt val tab tab.length = tab.findIdx (fun t => decide (t > val)) := by
  rw [ifirstgt, List.take_length, ifirstgtFrom_eq_findIdx, Nat.zero_add]

/-! ## Helper lemmas on the Bernoulli cache -/

theorem bernRun_no_load (precomputed : List ℚ) (calls : List BernCall)
    (h : BernCall.load ∉ calls) : bernRun precomputed calls = BernState.initial := by
  unfold bernRun
  generalize BernState.initial = s
  induction calls generalizing s with
  | nil => rfl
  | cons c cs ih =>
    rw [List.foldl_cons]
    cases c with
    | load => exact absurd (List.mem_cons_self _ _) h
    | num x => exact ih (fun hm => h (List.mem_cons_of_mem _ hm)) s

/-! ## Helper lemmas on the normal distribution -/

theorem normalDensity_eq_gaussianPDFReal (t : ℝ) :
    normalDensity t = ProbabilityTheory.gaussianPDFReal 0 1 t := by
  unfold normalDensity ProbabilityTheory.gaussianPDFReal
  simp [div_eq_inv_mul]

theorem normalDensity_continuous : Continuous normalDensity := by
  unfold normalDensity; fun_prop

theorem normalDensity_integrable : Integrable normalDensity := by
  have h : normalDensity = ProbabilityTheory.gaussianPDFReal 0 1 :=
    funext normalDensity_eq_gaussianPDFReal
  rw [h]; exact ProbabilityTheory.integrable_gaussianPDFReal 0 1

theorem nordis_eq_measure (z : ℝ) :
    nordis z = (ProbabilityTheory.gaussianReal 0 1 (Set.Iic z)).toReal := by
  rw [ProbabilityTheory.gaussianReal_apply_eq_integral 0 one_ne_zero,
    ENNReal.toReal_ofReal]
  · unfold nordis
    simp only [normalDensity_eq_gaussianPDFReal]
  · exact setIntegral_nonneg measurableSet_Iic
      fun t _ => ProbabilityTheory.gaussianPDFReal_nonneg 0 1 t

theorem nordis_eq_cdf (z : ℝ) :
    nordis z = ProbabilityTheory.cdf (ProbabilityTheory.gaussianReal 0 1) z := by
  rw [ProbabilityTheory.cdf_eq_toReal, nordis_eq_measure]

theorem nordis_zero : nordis 0 = 1 / 2 := by
  have heven : ∀ t : ℝ, normalDensity (-t) = normalDensity t := by
    intro t; unfold normalDensity; simp
  have h1 : ∫ t in Set.Iic (0 : ℝ), normalDensity t = ∫ t in Set.Ioi (0 : ℝ), normalDensity t := by
    have := integral_comp_neg_Iic (0 : ℝ) normalDensity
    simp only [heven, neg_zero] at this
    exact this
  have h2 : ∫ t in Set.Ioi (0 : ℝ), normalDensity t = 1 / 2 := by
    have hg := integral_gaussian_Ioi (1 / 2)
    have hfun : normalDensity = fun t => Real.exp (-(1 / 2) * t ^ 2) / Real.sqrt (2 * Real.pi) := by
      funext t; unfold normalDensity; congr 2; ring
    rw [hfun, integral_div, hg]
    have h2pi : Real.pi / (1 / 2) = 2 * Real.pi := by ring
    rw [h2pi]
    have hs : Real.sqrt (2 * Real.pi) ≠ 0 := ne_of_gt (Real.sqrt_pos.mpr (by positivity))
    rw [div_right_comm, div_self hs]
  unfold nordis
  rw [h1, h2]

theorem nordis_sub (z : ℝ) : nordis z = 1 / 2 + ∫ t in (0 : ℝ)..z, normalDensity t := by
  have h := intervalIntegral.integral_Iic_sub_Iic
    (normalDensity_integrable.integrableOn (s := Set.Iic 0))
    (normalDensity_integrable.integrableOn (s := Set.Iic z))
  have h0 := nordis_zero
  unfold nordis at h0 ⊢
  linarith

theorem nordis_hasDerivAt (z : ℝ) : HasDerivAt nordis (normalDensity z) z := by
  have h : nordis = fun z => 1 / 2 + ∫ t in (0 : ℝ)..z, normalDensity t := funext nordis_sub
  rw [h]
  have := (normalDensity_continuous.integral_hasStrictDerivAt 0 z).hasDerivAt
  exact this.const_add (1 / 2)

theorem nordis_continuous : Continuous nordis :=
  continuous_iff_continuousAt.mpr fun z => (nordis_hasDerivAt z).continuousAt

/-- C1: with `double` read as a real number, `ex` is the guarded
exponential: `ex x = 0` for every `x < -20`, and `ex x = exp x` for every
`x ≥ -20`, the bound `-20` itself included. -/
theorem ex_guarded (x : ℝ) :
    (x < -20 → ex Real.exp x = 0) ∧ (-20 ≤ x → ex Real.exp x = Real.exp x) ∧
      ex Real.exp (-20) = Real.exp (-20) :=
  ⟨ex_of_lt, ex_of_ge, ex_of_ge le_rfl⟩

theorem ex_guarded_witness :
    ((-21 : ℝ) < -20 ∧ ex Real.exp (-21) = 0) ∧
      ((-20 : ℝ) ≤ 3 ∧ ex Real.exp 3 = Real.exp 3) :=
  ⟨⟨by norm_num, (ex_guarded (-21)).1 (by norm_num)⟩,
    ⟨by norm_num, (ex_guarded 3).2.1 (by norm_num)⟩⟩

/-- C2: the two manifest constants have the documented values as
rationals: `CHI_EPSILON = 1/1000000` and `CHI_MAX = 99999`. -/
theorem chi_constants : CHI_EPSILON = 1 / 1000000 ∧ CHI_MAX = 99999 := by
  constructor
  · unfold CHI_EPSILON; norm_num
  · unfold CHI_MAX; norm_num

/-- C7: the truncation made by `ex` is one-sided and below the tolerance:
for every real `x`, `0 ≤ exp x - ex x < exp (-20)`, and
`exp (-20) < CHI_EPSILON`. -/
theorem ex_truncation (x : ℝ) :
    0 ≤ Real.exp x - ex Real.exp x ∧
      Real.exp x - ex Real.exp x < Real.exp (-20) ∧
      Real.exp (-20) < ((CHI_EPSILON : ℚ) : ℝ) := by
  have heps : ((CHI_EPSILON : ℚ) : ℝ) = 1 / 1000000 := by
    unfold CHI_EPSILON; norm_num
  refine ⟨?_, ?_, ?_⟩
  · rcases lt_or_le x (-20) with h | h
    · rw [ex_of_lt h, sub_zero]; exact (Real.exp_pos x).le
    · rw [ex_of_ge h, sub_self]
  · rcases lt_or_le x (-20) with h | h
    · rw [ex_of_lt h, sub_zero]; exact Real.exp_lt_exp.mpr h
    · rw [ex_of_ge h, sub_self]; exact Real.exp_pos _
  · rw [heps]; exact exp_neg_BIGX_lt

/-- C8: the cut-off keeps `ex` monotone: `x ≤ y` gives `ex x ≤ ex y`;
`ex x ≥ 0` for every `x`, and `ex x ≤ 1` for every `x ≤ 0`. -/
theorem ex_monotone (x y : ℝ) :
    (x ≤ y → ex Real.exp x ≤ ex Real.exp y) ∧ 0 ≤ ex Real.exp x ∧
      (x ≤ 0 → ex Real.exp x ≤ 1) := by
  have hnonneg : ∀ z : ℝ, 0 ≤ ex Real.exp z := by
    intro z
    rcases lt_or_le z (-20) with h | h
    · rw [ex_of_lt h]
    · rw [ex_of_ge h]; exact (Real.exp_pos z).le
  refine ⟨?_, hnonneg x, ?_⟩
  · intro hxy
    rcases lt_or_le x (-20) with h | h
    · rw [ex_of_lt h]; exact hnonneg y
    · rw [ex_of_ge h, ex_of_ge (h.trans hxy)]; exact Real.exp_le_exp.mpr hxy
  · intro hx
    rcases lt_or_le x (-20) with h | h
    · rw [ex_of_lt h]; exact zero_le_one
    · rw [ex_of_ge h]; exact Real.exp_le_one_iff.mpr hx

theorem ex_monotone_witness :
    ((-25 : ℝ) ≤ -1 ∧ ex Real.exp (-25) ≤ ex Real.exp (-1)) ∧
      ((-25 : ℝ) ≤ 0 ∧ ex Real.exp (-25) ≤ 1) :=
  ⟨⟨by norm_num, (ex_monotone (-25) (-1)).1 (by norm_num)⟩,
    ⟨by norm_num, (ex_monotone (-25) (-1)).2.2 (by norm_num)⟩⟩

/-- C9: the constant `I_SQRT_PI` is `1 / sqrt pi` to double precision:
`|I_SQRT_PI - 1 / sqrt pi| < 1e-15`. -/
theorem I_SQRT_PI_close :
    |((I_SQRT_PI : ℚ) : ℝ) - 1 / Real.sqrt Real.pi| < 1 / 10 ^ 15 := by
  have hc : ((I_SQRT_PI : ℚ) : ℝ) = 0.5641895835477562869480795 := by
    unfold I_SQRT_PI; norm_num
  have hlo := Real.pi_gt_d20
  have hhi := Real.pi_lt_d20
  have hpos : (0 : ℝ) < Real.pi := Real.pi_pos
  have hs : 0 < Real.sqrt Real.pi := Real.sqrt_pos.mpr hpos
  have hsq : Real.sqrt Real.pi * Real.sqrt Real.pi = Real.pi := Real.mul_self_sqrt hpos.le
  -- bounds on sqrt pi
  have h1 : (1.7724538509055159 : ℝ) < Real.sqrt Real.pi := by
    by_contra hcon
    have hle := not_lt.mp hcon
    have : Real.sqrt Real.pi * Real.sqrt Real.pi ≤ 1.7724538509055159 * 1.7724538509055159 :=
      mul_le_mul hle hle hs.le (by norm_num)
    rw [hsq] at this
    norm_num at this hlo
    linarith
  have h2 : Real.sqrt Real.pi < (1.7724538509055161 : ℝ) := by
    by_contra hcon
    have hle := not_lt.mp hcon
    have : (1.7724538509055161 : ℝ) * 1.7724538509055161 ≤ Real.sqrt Real.pi * Real.sqrt Real.pi :=
      mul_le_mul hle hle (by norm_num) hs.le
    rw [hsq] at this
    norm_num at this hhi
    linarith
  have h3 : 1 / Real.sqrt Real.pi < 1 / (1.7724538509055159 : ℝ) :=
    one_div_lt_one_div_of_lt (by norm_num) h1
  have h4 : 1 / (1.7724538509055161 : ℝ) < 1 / Real.sqrt Real.pi :=
    one_div_lt_one_div_of_lt hs h2
  rw [hc, abs_lt]
  constructor
  · norm_num at h3 ⊢
    linarith
  · norm_num at h4 ⊢
    linarith

/-! ## Claims on the table search -/

/-- C3, as the claim words it, fails on a tie with the largest entry: in the
ordered table `[1, 3, 5]` the value `5` does not exceed every entry, yet no
entry is greater than it, and the scan returns `3`, the table length. -/
theorem ifirstgt_tie_counterexample :
    List.Sorted (· ≤ ·) ([1, 3, 5] : List Int) ∧
      ¬ (∀ t ∈ ([1, 3, 5] : List Int), t < 5) ∧
      ifirstgt 5 [1, 3, 5] 3 = 3 ∧
      ¬ (∃ i, i < 3 ∧ ([1, 3, 5] : List Int).getD i 0 > 5) := by
  decide

/-- C3 (amended): for every ordered int table `tab` of length `n` and every
`val`, `ifirstgt val tab n` is `n` when no entry is strictly greater than `val`
(so also when `val` exceeds every entry), and otherwise it is the smallest
index `i` with `tab[i] > val`: the entry there is strictly greater than `val`,
hence never equal to it, and every earlier entry is at most `val`. -/
theorem ifirstgt_first_exceeding (val : Int) (tab : List Int) (n : Nat)
    (hn : tab.length = n) (_hsorted : List.Sorted (· ≤ ·) tab) :
    ((∀ t ∈ tab, t < val) → ifirstgt val tab n = n) ∧
      ((∀ t ∈ tab, t ≤ val) → ifirstgt val tab n = n) ∧
      ((∃ t ∈ tab, val < t) →
        ifirstgt val tab n < n ∧ val < tab.getD (ifirstgt val tab n) 0 ∧
          ∀ j, j < ifirstgt val tab n → tab.getD j 0 ≤ val) := by
  subst hn
  rw [ifirstgt_eq_findIdx]
  have hle : (∀ t ∈ tab, t ≤ val) →
      tab.findIdx (fun t => decide (t > val)) = tab.length := by
    intro h
    apply List.findIdx_eq_length_of_false
    intro t ht
    simpa using h t ht
  refine ⟨fun h => hle fun t ht => (h t ht).le, hle, ?_⟩
  rintro ⟨t, ht, hvt⟩
  have hlt : tab.findIdx (fun t => decide (t > val)) < tab.length :=
    List.findIdx_lt_length_of_exists ⟨t, ht, by simpa using hvt⟩
  refine ⟨hlt, ?_, ?_⟩
  · have h := List.findIdx_getElem (p := fun t => decide (t > val)) (w := hlt)
    rw [List.getD_eq_getElem _ _ hlt]
    simpa using h
  · intro j hj
    have hjl : j < tab.length := hj.trans hlt
    have h := List.not_of_lt_findIdx hj
    rw [List.getD_eq_getElem _ _ hjl]
    simpa using h

theorem ifirstgt_first_exceeding_witness :
    ([1, 3, 5] : List Int).length = 3 ∧ List.Sorted (· ≤ ·) ([1, 3, 5] : List Int) ∧
      (∃ t ∈ ([1, 3, 5] : List Int), 4 < t) ∧
      (ifirstgt 4 [1, 3, 5] 3 < 3 ∧ 4 < ([1, 3, 5] : List Int).getD (ifirstgt 4 [1, 3, 5] 3) 0 ∧
        ∀ j, j < ifirstgt 4 [1, 3, 5] 3 → ([1, 3, 5] : List Int).getD j 0 ≤ 4) :=
  ⟨rfl, by decide, by decide,
    (ifirstgt_first_exceeding 4 [1, 3, 5] 3 rfl (by decide)).2.2 (by decide)⟩

/-! ## Claims on the Bernoulli cache -/

/-- C6: in every run in which `bernload` has not yet been called, `bernum x`
fails with the uninitialized-cache error for every `x`: the result is
determined, it is an error and not a value. -/
theorem bernum_before_bernload (precomputed : List ℚ) (calls : List BernCall)
    (h : BernCall.load ∉ calls) (x : Int) :
    bernum (bernRun precomputed calls) x = .error .uninitializedCache := by
  rw [bernRun_no_load precomputed calls h]; rfl

theorem bernum_before_bernload_witness :
    BernCall.load ∉ [BernCall.num 2, BernCall.num (-1)] ∧
      bernum (bernRun [1, -1/2, 1/6] [BernCall.num 2, BernCall.num (-1)]) 2
        = .error .uninitializedCache :=
  ⟨by decide, bernum_before_bernload _ _ (by decide) 2⟩

/-! ## Claims on the normal distribution -/

/-- C4: `nordis` is the standard normal CDF, the distribution function of the
Gaussian measure with mean `0` and variance `1`, and its value at the mean is
one half: `nordis 0 = 1/2`. -/
theorem nordis_at_mean :
    (∀ z, nordis z = ProbabilityTheory.cdf (ProbabilityTheory.gaussianReal 0 1) z) ∧
      nordis 0 = 1 / 2 :=
  ⟨nordis_eq_cdf, nordis_zero⟩

end Statsubs
